import Mathlib

/-!
Shallow embedding of the security core of the NodeJS API server repository:
token structural validation, signature confirmation against the token store,
scope-intersection permission checks, token lifecycle operations
(generate, invalidate, list, logs), the audit access stage and the error
translation table, all translated from the JavaScript sources
(SecurityController, Database, Errors, ErrorHandler, Console modules).
-/

/-- A field of a JSON object as the dynamic type checks of the source see it:
the field may be absent, present with a value of an unexpected runtime type,
or present with a value of the expected type. -/
inductive JField (α : Type) where
  | absent : JField α
  | other : JField α
  | val : α → JField α
  deriving DecidableEq, Repr

/-- The typed value of a field, when present with the expected type. -/
def JField.toOption {α : Type} : JField α → Option α
  | .val a => some a
  | _ => none

/-- Whether the field is present with the expected runtime type
(the conjunction hasOwnProperty plus isString or isArray in the source). -/
def JField.isTyped {α : Type} : JField α → Bool
  | .val _ => true
  | _ => false

/-- A decoded token payload or parsed request body: either not an object at
all, or an object with the three fields the source reads: id (string),
scope (array of strings) and validity (string). -/
inductive Payload where
  | nonObject : Payload
  | obj : JField String → JField (List String) → JField String → Payload
  deriving DecidableEq, Repr

/-- The id field of a payload, when present as a string. -/
def payloadId : Payload → Option String
  | .obj (.val i) _ _ => some i
  | _ => none

/-- The scope field of a payload; empty when absent or mistyped
(it is only read on payloads that passed validation). -/
def scopeOf : Payload → List String
  | .obj _ (.val s) _ => s
  | _ => []

/-- The expiry option of generate: request.body.validity when it is a truthy
string, the default of 24 hours otherwise (the source uses a falsy-or). -/
def validityOf : Payload → String
  | .obj _ _ (.val v) => if v == "" then "24 hours" else v
  | _ => "24 hours"

/-- internals.validate.token of the SecurityController: the payload is an
object, has an id field holding a string and a scope field holding an array.
No emptiness requirement appears in the source. -/
def validateToken : Payload → Bool
  | .nonObject => false
  | .obj id scope _ => id.isTyped && scope.isTyped

/-- internals.validate.payload of the SecurityController: the request body
must be an object. -/
def validatePayload : Payload → Bool
  | .nonObject => false
  | .obj _ _ _ => true

/-- The names of errors routed through next, as used by the source. -/
inductive ErrName where
  | DefaultError
  | SyntaxError
  | TokenPermissionError
  | TokenExpiredError
  | JsonWebTokenError
  | InvalidPayloadError
  | NoDataAvailableError
  | NothingToRemoveError
  | OtherError : String → ErrName
  deriving DecidableEq, Repr

/-- One row of the error table: HTTP status, application code, message. -/
structure ErrTriple where
  status : Nat
  code : Nat
  message : String
  deriving DecidableEq, Repr

namespace Errors

/-- Errors.DefaultError of utilities Errors. -/
def DefaultError : ErrTriple := ⟨400, 100, "Not allowed"⟩

/-- Errors.SyntaxError of utilities Errors. -/
def SyntaxError : ErrTriple := ⟨400, 101, "Malformed data"⟩

/-- Errors.TokenPermissionError of utilities Errors. -/
def TokenPermissionError : ErrTriple := ⟨401, 102, "Not enough permissions"⟩

/-- Errors.TokenExpiredError of utilities Errors. -/
def TokenExpiredError : ErrTriple := ⟨401, 103, "Token has expired"⟩

/-- Errors.JsonWebTokenError of utilities Errors. -/
def JsonWebTokenError : ErrTriple := ⟨401, 104, "Token is invalid"⟩

/-- Errors.InvalidPayloadError of utilities Errors. -/
def InvalidPayloadError : ErrTriple := ⟨400, 105, "Token or request body payload is invalid"⟩

/-- Errors.NoDataAvailableError of utilities Errors. -/
def NoDataAvailableError : ErrTriple := ⟨404, 106, "No data matches given filters"⟩

/-- Errors.NothingToRemoveError of utilities Errors. -/
def NothingToRemoveError : ErrTriple := ⟨409, 107, "Nothing to remove"⟩

end Errors

/-- The hasOwnProperty lookup of the error handling middleware in the typed
error table of utilities Errors. -/
def errorsLookup : ErrName → Option ErrTriple
  | .DefaultError => some Errors.DefaultError
  | .SyntaxError => some Errors.SyntaxError
  | .TokenPermissionError => some Errors.TokenPermissionError
  | .TokenExpiredError => some Errors.TokenExpiredError
  | .JsonWebTokenError => some Errors.JsonWebTokenError
  | .InvalidPayloadError => some Errors.InvalidPayloadError
  | .NoDataAvailableError => some Errors.NoDataAvailableError
  | .NothingToRemoveError => some Errors.NothingToRemoveError
  | .OtherError _ => none

/-- The triple the error handling middleware selects: the table row for the
error name when the table has one, the DefaultError row otherwise. -/
def errorTranslate (e : ErrName) : ErrTriple :=
  (errorsLookup e).getD Errors.DefaultError

/-- A persisted token record of the tokens collection. -/
structure TokenRecord where
  time : Nat
  token : String
  user : String
  validity : String
  scope : List String
  status : String
  authority : String
  deriving DecidableEq, Repr

/-- A persisted audit log entry of the logs collection. -/
structure LogRecord where
  time : Nat
  type : String
  user : String
  ip : String
  token : String
  method : String
  endpoint : String
  payload : Payload
  info : String
  deriving DecidableEq, Repr

/-- A JSON body sent to the client. -/
inductive RValue where
  | errBody : Nat → String → RValue
  | msgBody : String → RValue
  | tokenBody : String → RValue
  | tokensBody : List TokenRecord → RValue
  | logsBody : List LogRecord → RValue
  deriving DecidableEq, Repr

/-- An HTTP reply: status plus JSON body. -/
structure HttpReply where
  status : Nat
  body : RValue
  deriving DecidableEq, Repr

/-- The data argument handed to internals.respond. -/
inductive RespData where
  | errData : ErrTriple → RespData
  | okMsg : String → RespData
  | okToken : String → RespData
  | okTokens : List TokenRecord → RespData
  | okLogs : List LogRecord → RespData
  deriving DecidableEq, Repr

/-- internals.respond of the SecurityController: data carrying an error
object replies with the status of the error, otherwise with the current
request status and the data itself. -/
def respond (reqStatus : Nat) : RespData → HttpReply
  | .errData t => ⟨t.status, .errBody t.code t.message⟩
  | .okMsg s => ⟨reqStatus, .msgBody s⟩
  | .okToken t => ⟨reqStatus, .tokenBody t⟩
  | .okTokens l => ⟨reqStatus, .tokensBody l⟩
  | .okLogs l => ⟨reqStatus, .logsBody l⟩

/-- The reply of the error handling middleware for an error name:
status from the selected table row, body with its code and message. -/
def errorMiddleware (e : ErrName) : HttpReply :=
  let t := errorTranslate e
  ⟨t.status, .errBody t.code t.message⟩

/-- The outcome of a middleware stage: proceed to the next handler, or pass
an error object to the error handling middleware. -/
inductive StepResult where
  | next
  | nextError : ErrName → StepResult
  deriving DecidableEq, Repr

/-- The outcome of the authenticate stage: the decoded token is attached to
the request and the chain proceeds, or the stage fails with an error. -/
inductive AuthResult where
  | accept : Payload → AuthResult
  | reject : ErrName → AuthResult
  deriving DecidableEq, Repr

/-- The underscore intersection helper: walks the first list in order,
skipping values already in the result, keeping values contained in the
second list. The result is therefore deduplicated. -/
def uInterAux (granted : List String) : List String → List String → List String
  | _, [] => []
  | res, x :: xs =>
    if x ∈ res then uInterAux granted res xs
    else if x ∈ granted then x :: uInterAux granted (x :: res) xs
    else uInterAux granted res xs

/-- underscore intersection of the required permissions with the granted
scope, as called by processPermissions. -/
def uIntersection (required granted : List String) : List String :=
  uInterAux granted [] required

/-- The test of internals.processPermissions: the length of the intersection
of the bound permissions with the token scope equals the number of bound
permissions. -/
def processPermissions (permissions tokenScope : List String) : Bool :=
  (uIntersection permissions tokenScope).length == permissions.length

/-- The middleware produced by actions.require for a permission list: calls
next when processPermissions holds, otherwise fails with
TokenPermissionError. -/
def requireMiddleware (permissions tokenScope : List String) : StepResult :=
  if processPermissions permissions tokenScope then .next
  else .nextError .TokenPermissionError

/-- actions.secure of the SecurityController: validates the decoded request
token and the request body, proceeding on success and failing with
InvalidPayloadError otherwise. A missing token fails the object check. -/
def secure (token : Option Payload) (body : Payload) : StepResult :=
  match token with
  | some t =>
    if validateToken t && validatePayload body then .next
    else .nextError .InvalidPayloadError
  | none => .nextError .InvalidPayloadError

/-- A character allowed inside a segment of the bearer token pattern:
letters, digits, underscore or hyphen. -/
def isBase64UrlChar (c : Char) : Bool :=
  c.isAlpha || c.isDigit || c == '_' || c == '-'

/-- A segment of the bearer token pattern: one or more allowed characters. -/
def segOk (l : List Char) : Bool :=
  !l.isEmpty && l.all isBase64UrlChar

/-- The tokenFormat regular expression of the source: the word Bearer, a
space, then exactly three dot-separated nonempty base64url segments.
Splitting on the dot is faithful because the dot is not a segment
character. -/
def tokenFormatTest (h : String) : Bool :=
  match h.data with
  | 'B' :: 'e' :: 'a' :: 'r' :: 'e' :: 'r' :: ' ' :: rest =>
    let parts := rest.splitOn '.'
    parts.length == 3 && parts.all segOk
  | _ => false

/-- The token string the authenticate stage extracts from the header: the
last space-separated word, the empty string when that is falsy. -/
def tokenStringOf (h : String) : String :=
  String.mk (((h.data.splitOn ' ').getLast?).getD [])

/-- The store filter built by onTokenDecodeSuccess: records whose scope
equals the decoded scope array, whose user equals the decoded id, and whose
status is enabled. A payload without a typed id or scope matches no record,
since every stored record carries string user and array scope. -/
def enabledTokenFilter (tok : Payload) (r : TokenRecord) : Bool :=
  match tok with
  | .obj (.val i) (.val s) _ =>
    r.scope == s && r.user == i && r.status == "enabled"
  | _ => false

/-- internals.confirmToken: accept when the looked-up record exists and its
stored token string equals the presented credential, otherwise fail with
JsonWebTokenError. -/
def confirmToken (tok : Payload) (tokenString : String) :
    Option TokenRecord → AuthResult
  | some r =>
    if r.token == tokenString then .accept tok
    else .reject .JsonWebTokenError
  | none => .reject .JsonWebTokenError

/-- internals.onTokenDecodeSuccess: list the tokens collection under the
enabled-token filter, take the first record, and confirm it against the
presented credential. -/
def onTokenDecodeSuccess (tok : Payload) (tokenString : String)
    (tokensDb : List TokenRecord) : AuthResult :=
  confirmToken tok tokenString (tokensDb.filter (enabledTokenFilter tok)).head?

/-- The observable trace of the authenticate stage: its outcome, whether
signature verification ran, and how many token store lookups ran. -/
structure AuthStageTrace where
  result : AuthResult
  verifyCalled : Bool
  storeCalls : Nat
  deriving DecidableEq, Repr

/-- actions.authenticate of the SecurityController: when the Authorization
header matches the strict bearer pattern, extract the token string, verify
the signature (abstracted as the verify argument), and on success look the
token up in the store; a header mismatch fails immediately with
InvalidPayloadError, calling neither verify nor the store. -/
def authenticate (authHeader : Option String)
    (verify : String → Except ErrName Payload)
    (tokensDb : List TokenRecord) : AuthStageTrace :=
  match authHeader with
  | none => ⟨.reject .InvalidPayloadError, false, 0⟩
  | some h =>
    if tokenFormatTest h then
      let ts := tokenStringOf h
      match verify ts with
      | .error e => ⟨.reject e, true, 0⟩
      | .ok tok => ⟨onTokenDecodeSuccess tok ts tokensDb, true, 1⟩
    else ⟨.reject .InvalidPayloadError, false, 0⟩

/-- jwt.sign abstracted as a concrete encoding of the signed claims and the
issue time into an opaque credential string. -/
def sign (p : Payload) (now : Nat) : String :=
  String.intercalate "|"
    ["jwt", (payloadId p).getD "", String.intercalate "," (scopeOf p),
     validityOf p, toString now]

/-- The assignment request.body.id = request.params.user performed by
actions.generate before validation: overwrites whatever id the body held. -/
def setBodyId (p : Payload) (u : String) : Payload :=
  match p with
  | .nonObject => .nonObject
  | .obj _ scope validity => .obj (.val u) scope validity

/-- Database.upsert on the tokens collection keyed by user: findAndModify
replaces the first record matching the user, inserting when none does. -/
def upsertByUser : List TokenRecord → TokenRecord → List TokenRecord
  | [], nr => [nr]
  | r :: rs, nr =>
    if r.user == nr.user then nr :: rs else r :: upsertByUser rs nr

/-- The outcome of a dispatching action: a direct HTTP reply, or an error
object passed to next. -/
inductive ActionResult where
  | reply : HttpReply → ActionResult
  | nextError : ErrName → ActionResult
  deriving DecidableEq, Repr

/-- actions.generate of the SecurityController: overwrite the body id with
the user path parameter, validate the body as token claims, sign it, upsert
the record keyed by that user with status enabled and the issuer id as
authority, and reply 201 with the token; an invalid body fails with
InvalidPayloadError. -/
def generate (body : Payload) (paramsUser issuerId : String)
    (tokensDb : List TokenRecord) (now : Nat) :
    List TokenRecord × ActionResult :=
  let b := setBodyId body paramsUser
  if validateToken b then
    let tokenStr := sign b now
    let record : TokenRecord :=
      { time := now
        token := tokenStr
        user := (payloadId b).getD ""
        validity := validityOf b
        scope := scopeOf b
        status := "enabled"
        authority := issuerId }
    (upsertByUser tokensDb record, .reply (respond 201 (.okToken tokenStr)))
  else (tokensDb, .nextError .InvalidPayloadError)

/-- Database process.remove: a positive deletion count yields a success
message quoting the count, a zero count yields NothingToRemoveError. -/
def processRemove (n : Nat) : RespData :=
  if n > 0 then
    .okMsg (String.intercalate " " ["Removed", toString n, "record(s)"])
  else .errData Errors.NothingToRemoveError

/-- actions.invalidate of the SecurityController: deleteMany on the tokens
collection filtered by the user path parameter, then respond with the
processed removal result. -/
def invalidate (targetUser : String) (reqStatus : Nat)
    (tokensDb : List TokenRecord) : List TokenRecord × HttpReply :=
  let removedCount := (tokensDb.filter (fun r => r.user == targetUser)).length
  let tokensDb2 := tokensDb.filter (fun r => !(r.user == targetUser))
  (tokensDb2, respond reqStatus (processRemove removedCount))

/-- Database process.list: a nonempty raw response maps to the records with
internal identifiers stripped, anything else maps to the empty list; the
operation never produces an error. -/
def processList {α : Type} (rows : List α) : List α :=
  if rows.length > 0 then rows else []

/-- Insertion into a list kept sorted by time descending. -/
def insertByTimeDesc (r : LogRecord) : List LogRecord → List LogRecord
  | [] => [r]
  | x :: xs =>
    if x.time ≤ r.time then r :: x :: xs else x :: insertByTimeDesc r xs

/-- The sort option time minus one of the logs action: records ordered by
time descending. -/
def sortByTimeDesc (l : List LogRecord) : List LogRecord :=
  l.foldr insertByTimeDesc []

/-- Database.list on the tokens collection with no filter, as the list
action calls it. -/
def databaseListTokens (tokensDb : List TokenRecord) : List TokenRecord :=
  processList tokensDb

/-- Database.list on the logs collection under the query filter of the logs
action, sorted by time descending. The translation of the query string into
a record predicate belongs to the external store and is abstracted as the
query argument. -/
def databaseListLogs (logsDb : List LogRecord) (query : LogRecord → Bool) :
    List LogRecord :=
  processList (sortByTimeDesc (logsDb.filter query))

/-- actions.list of the SecurityController: reply with every token record. -/
def listTokensAction (reqStatus : Nat) (tokensDb : List TokenRecord) :
    HttpReply :=
  respond reqStatus (.okTokens (databaseListTokens tokensDb))

/-- actions.logs of the SecurityController: reply with the filtered,
time-descending log records. -/
def logsAction (reqStatus : Nat) (logsDb : List LogRecord)
    (query : LogRecord → Bool) : HttpReply :=
  respond reqStatus (.okLogs (databaseListLogs logsDb query))

/-- The per-request context fields the audit stage reads. -/
structure Request where
  authorization : Option String
  forwardedFor : Option String
  body : Payload
  paramsUser : String
  path : String
  originalUrl : String
  method : String
  token : Option Payload
  deriving DecidableEq, Repr

/-- The AuditLogEntry of type request built by actions.access, with the
defaults Console.save substitutes for missing fields. -/
def accessLog (req : Request) (now : Nat) : LogRecord :=
  { time := now
    type := "request"
    user := (req.token.bind payloadId).getD ""
    ip := req.forwardedFor.getD ""
    token := req.authorization.getD ""
    method := req.method
    endpoint := req.originalUrl
    payload := req.body
    info := "" }

/-- Console.save: appends the entry to the logs collection; a persistence
failure is swallowed, leaving the collection unchanged and never surfacing
to the caller. -/
def consoleSave (logsDb : List LogRecord) (entry : LogRecord)
    (persistOk : Bool) : List LogRecord :=
  if persistOk then logsDb ++ [entry] else logsDb

/-- actions.access of the SecurityController: set the default success status
to 200, build the request audit entry, persist it unless the request path is
in the exempted list containing the logs endpoint, and always proceed. -/
def accessStage (req : Request) (logsDb : List LogRecord) (now : Nat)
    (persistOk : Bool) : List LogRecord × Nat × StepResult :=
  let log := accessLog req now
  let logsDb2 :=
    if ["/logs"].contains req.path then logsDb
    else consoleSave logsDb log persistOk
  (logsDb2, 200, .next)

/-! Helper lemmas about the deduplicating underscore intersection. -/

theorem uInterAux_eq_filter (g : List String) (r : List String) :
    ∀ res : List String, r.Nodup → (∀ x ∈ r, x ∉ res) →
    uInterAux g res r = r.filter (fun x => decide (x ∈ g)) := by
  induction r with
  | nil => intro res _ _; rfl
  | cons x xs ih =>
    intro res hnd hres
    have hx : x ∉ res := hres x (by simp)
    rw [uInterAux, if_neg hx]
    by_cases hg : x ∈ g
    · rw [if_pos hg]
      have hrec : uInterAux g (x :: res) xs = xs.filter (fun x => decide (x ∈ g)) := by
        apply ih (x :: res) (List.Nodup.of_cons hnd)
        intro y hy
        simp only [List.mem_cons, not_or]
        refine ⟨?_, hres y (List.mem_cons_of_mem x hy)⟩
        intro hyx
        exact (List.nodup_cons.mp hnd).1 (hyx ▸ hy)
      rw [hrec, List.filter_cons_of_pos (by simpa using hg)]
    · rw [if_neg hg]
      have hrec : uInterAux g res xs = xs.filter (fun x => decide (x ∈ g)) := by
        apply ih res (List.Nodup.of_cons hnd)
        intro y hy
        exact hres y (List.mem_cons_of_mem x hy)
      rw [hrec, List.filter_cons_of_neg (by simpa using hg)]

theorem length_filter_eq_iff {α : Type} (p : α → Bool) (l : List α) :
    (l.filter p).length = l.length ↔ ∀ x ∈ l, p x = true := by
  induction l with
  | nil => simp
  | cons a l ih =>
    by_cases ha : p a = true
    · rw [List.filter_cons_of_pos ha]
      simp only [List.length_cons, Nat.add_right_cancel_iff, ih]
      constructor
      · intro h x hx
        rcases List.mem_cons.mp hx with h1 | h2
        · exact h1 ▸ ha
        · exact h x h2
      · intro h x hx; exact h x (List.mem_cons_of_mem a hx)
    · rw [List.filter_cons_of_neg ha]
      constructor
      · intro h
        have hle := List.length_filter_le p l
        simp only [List.length_cons] at h
        omega
      · intro h
        exact absurd (h a (by simp)) ha

theorem processPermissions_iff (R G : List String) (hnd : R.Nodup) :
    processPermissions R G = true ↔ ∀ p ∈ R, p ∈ G := by
  have hfil : uIntersection R G = R.filter (fun x => decide (x ∈ G)) :=
    uInterAux_eq_filter G R [] hnd (by simp)
  unfold processPermissions
  rw [hfil, Nat.beq_eq_true_eq, length_filter_eq_iff]
  constructor
  · intro h p hp; simpa using h p hp
  · intro h p hp; simpa using h p hp

/-- Claim C1, counterexample: with the required list containing the same
permission twice and a granted scope holding that permission once, every
required element occurs in the granted scope, yet the middleware denies the
request, because the underscore intersection deduplicates and its length is
one, not two. The claim asserts the middleware proceeds in this situation. -/
theorem claim1_counterexample :
    ((["General.Access", "General.Access"] : List String).all
      (fun p => (["General.Access"] : List String).contains p)) = true ∧
    requireMiddleware ["General.Access", "General.Access"] ["General.Access"] =
      .nextError .TokenPermissionError := by
  constructor
  · decide
  · decide

/-- Claim C1, amended: for a duplicate-free required-permission list R the
middleware produced by actions.require lets the request proceed iff every
element of R occurs in the granted scope G, and it always either proceeds or
fails with TokenPermissionError; for R with repeated elements the
equivalence with set containment fails. -/
theorem claim1_subset_iff (R G : List String) (hnd : R.Nodup) :
    (requireMiddleware R G = .next ↔ ∀ p ∈ R, p ∈ G) ∧
    (requireMiddleware R G = .next ∨
      requireMiddleware R G = .nextError .TokenPermissionError) := by
  have hreq : requireMiddleware R G = .next ↔ processPermissions R G = true := by
    unfold requireMiddleware
    by_cases hp : processPermissions R G = true
    · simp [hp]
    · simp [hp]
  refine ⟨hreq.trans (processPermissions_iff R G hnd), ?_⟩
  unfold requireMiddleware
  by_cases hp : processPermissions R G = true
  · left; simp [hp]
  · right; simp [hp]

/-- Claim C1, witness: a concrete duplicate-free requirement contained in a
concrete granted scope is let through. -/
theorem claim1_witness :
    requireMiddleware ["Tokens.Generate"] ["General.Access", "Tokens.Generate"] = .next :=
  (claim1_subset_iff ["Tokens.Generate"] ["General.Access", "Tokens.Generate"]
    (by decide)).1.mpr (by decide)

/-- Claim C3, counterexample: a decoded payload with an empty-string id and
an empty scope array passes internals.validate.token, although the claim
says any such claims fail structural validation. -/
theorem claim3_counterexample :
    validateToken (.obj (.val "") (.val []) .absent) = true := rfl

/-- Claim C3, amended: structural validation passes iff the payload is an
object whose id field holds a string and whose scope field holds an array;
emptiness is never checked, so the empty id string and the empty scope array
pass validation, and the secure stage proceeds on such a token instead of
failing with InvalidPayloadError. -/
theorem claim3_validate_characterization :
    (∀ (i : JField String) (s : JField (List String)) (v : JField String),
      validateToken (.obj i s v) = (i.isTyped && s.isTyped)) ∧
    validateToken .nonObject = false ∧
    secure (some (.obj (.val "") (.val []) .absent))
      (.obj .absent .absent .absent) = .next :=
  ⟨fun _ _ _ => rfl, rfl, rfl⟩

/-- Claim C7: the error handling middleware replies with the fixed triple of
the error table for every error kind: NoDataAvailableError maps to status
404 with code 106, NothingToRemoveError to 409 with code 107, the
permission, expiry and signature errors to 401, the remaining named kinds to
their table rows, and every unknown kind to the DefaultError triple. -/
theorem claim7_error_table :
    errorMiddleware .NoDataAvailableError = ⟨404, .errBody 106 "No data matches given filters"⟩ ∧
    errorMiddleware .NothingToRemoveError = ⟨409, .errBody 107 "Nothing to remove"⟩ ∧
    errorMiddleware .TokenPermissionError = ⟨401, .errBody 102 "Not enough permissions"⟩ ∧
    errorMiddleware .TokenExpiredError = ⟨401, .errBody 103 "Token has expired"⟩ ∧
    errorMiddleware .JsonWebTokenError = ⟨401, .errBody 104 "Token is invalid"⟩ ∧
    errorMiddleware .DefaultError = ⟨400, .errBody 100 "Not allowed"⟩ ∧
    errorMiddleware .SyntaxError = ⟨400, .errBody 101 "Malformed data"⟩ ∧
    errorMiddleware .InvalidPayloadError =
      ⟨400, .errBody 105 "Token or request body payload is invalid"⟩ ∧
    ∀ s, errorMiddleware (.OtherError s) = errorMiddleware .DefaultError :=
  ⟨rfl, rfl, rfl, rfl, rfl, rfl, rfl, rfl, fun _ => rfl⟩

/-- Claim C6: when the Authorization header is absent or fails the strict
three-segment bearer pattern, the authenticate stage rejects the request
with InvalidPayloadError at once: signature verification does not run and
the token store is never contacted. -/
theorem claim6_malformed_header (h : String)
    (verify : String → Except ErrName Payload)
    (tokensDb : List TokenRecord) (hbad : tokenFormatTest h = false) :
    authenticate (some h) verify tokensDb =
      ⟨.reject .InvalidPayloadError, false, 0⟩ ∧
    authenticate none verify tokensDb =
      ⟨.reject .InvalidPayloadError, false, 0⟩ := by
  constructor
  · simp [authenticate, hbad]
  · rfl

/-- A stub for the external signature verification, for concrete checks. -/
def verifyStub : String → Except ErrName Payload :=
  fun _ => .error .JsonWebTokenError

/-- Claim C6, witness: a header with a token lacking the dot-separated
segments is rejected without verification or a store call. -/
theorem claim6_witness :
    authenticate (some "Bearer abc") verifyStub [] =
      ⟨.reject .InvalidPayloadError, false, 0⟩ :=
  (claim6_malformed_header "Bearer abc" verifyStub [] (by decide)).1

/-- Claim C8: the audit stage always proceeds and sets the default success
status to 200; when the request path is the exempted logs endpoint the logs
collection is unchanged, when it is any other path and persistence succeeds
exactly one entry of type request is appended, and when persistence fails
the collection is unchanged while the stage still proceeds. -/
theorem claim8_audit (req : Request) (logsDb : List LogRecord) (now : Nat)
    (persistOk : Bool) :
    (accessStage req logsDb now persistOk).2.2 = .next ∧
    (accessStage req logsDb now persistOk).2.1 = 200 ∧
    (req.path = "/logs" → (accessStage req logsDb now persistOk).1 = logsDb) ∧
    (req.path ≠ "/logs" → persistOk = true →
      (accessStage req logsDb now persistOk).1 = logsDb ++ [accessLog req now] ∧
      (accessLog req now).type = "request") ∧
    (persistOk = false → (accessStage req logsDb now persistOk).1 = logsDb) := by
  refine ⟨rfl, rfl, ?_, ?_, ?_⟩
  · intro hp
    simp [accessStage, List.contains, hp]
  · intro hp hok
    refine ⟨?_, rfl⟩
    simp [accessStage, consoleSave, List.contains, hp, hok]
  · intro hok
    by_cases hp : req.path = "/logs"
    · simp [accessStage, List.contains, hp]
    · simp [accessStage, consoleSave, List.contains, hp, hok]

/-- A concrete request for witnesses: a GET on the tokens listing route with
a valid admin token attached. -/
def sampleRequest : Request :=
  { authorization := some "Bearer a.b.c"
    forwardedFor := none
    body := .obj .absent .absent .absent
    paramsUser := ""
    path := "/tokens"
    originalUrl := "/tokens"
    method := "GET"
    token := some (.obj (.val "admin") (.val ["General.Access"]) .absent) }

/-- Claim C8, witness: on the concrete non-exempted request with persistence
succeeding, the stage proceeds and appends exactly the request entry. -/
theorem claim8_witness :
    (accessStage sampleRequest [] 5 true).2.2 = .next ∧
    (accessStage sampleRequest [] 5 true).1 = [accessLog sampleRequest 5] ∧
    (accessLog sampleRequest 5).type = "request" := by
  have h := claim8_audit sampleRequest [] 5 true
  exact ⟨h.1, ((h.2.2.2.1 (by decide) rfl).1), rfl⟩

theorem upsertByUser_mem (db : List TokenRecord) (nr : TokenRecord) :
    ∀ t ∈ upsertByUser db nr, t ∈ db ∨ t = nr := by
  induction db with
  | nil =>
    intro t ht
    right
    simpa [upsertByUser] using ht
  | cons r rs ih =>
    intro t ht
    rw [upsertByUser] at ht
    by_cases hu : r.user == nr.user
    · rw [if_pos hu] at ht
      rcases List.mem_cons.mp ht with h | h
      · right; exact h
      · left; exact List.mem_cons_of_mem r h
    · rw [if_neg hu] at ht
      rcases List.mem_cons.mp ht with h | h
      · left; exact h ▸ List.mem_cons_self r rs
      · rcases ih t h with h1 | h1
        · left; exact List.mem_cons_of_mem r h1
        · right; exact h1

/-- Claim C9: actions.generate overwrites the body id with the user path
parameter before anything else, so its whole behaviour is independent of the
id supplied in the body, the claims object it validates and signs carries
the path parameter as id, and every record the call adds to the store (that
is, any record of the new store not already present) has the path parameter
as its user field. -/
theorem claim9_id_from_path (i i2 : JField String) (s : JField (List String))
    (v : JField String) (u iss : String) (tokensDb : List TokenRecord)
    (now : Nat) :
    generate (.obj i s v) u iss tokensDb now =
      generate (.obj i2 s v) u iss tokensDb now ∧
    payloadId (setBodyId (.obj i s v) u) = some u ∧
    ∀ t ∈ (generate (.obj i s v) u iss tokensDb now).1,
      t ∈ tokensDb ∨ t.user = u := by
  refine ⟨rfl, rfl, ?_⟩
  intro t ht
  by_cases hv : validateToken (setBodyId (.obj i s v) u) = true
  · rw [generate] at ht
    rw [if_pos hv] at ht
    rcases upsertByUser_mem _ _ t ht with h1 | h1
    · left; exact h1
    · right; rw [h1]; rfl
  · rw [generate] at ht
    rw [if_neg hv] at ht
    left; exact ht

/-- Claim C9, witness: at a concrete body carrying a different id, the call
behaves as with any other body id, the validated claims carry the path user,
and on the empty store the single added record belongs to the path user. -/
theorem claim9_witness :
    generate (.obj (.val "mallory") (.val ["General.Access"]) .absent)
        "alice" "admin" [] 7 =
      generate (.obj .absent (.val ["General.Access"]) .absent)
        "alice" "admin" [] 7 ∧
    payloadId (setBodyId
      (.obj (.val "mallory") (.val ["General.Access"]) .absent) "alice") =
      some "alice" := by
  have h := claim9_id_from_path (.val "mallory") .absent
    (.val ["General.Access"]) .absent "alice" "admin" [] 7
  exact ⟨h.1, h.2.1⟩

theorem filter_length_mono {α : Type} (p q : α → Bool)
    (h : ∀ a, p a = true → q a = true) :
    ∀ l : List α, (l.filter p).length ≤ (l.filter q).length := by
  intro l
  induction l with
  | nil => simp
  | cons a l ih =>
    by_cases hp : p a = true
    · rw [List.filter_cons_of_pos hp, List.filter_cons_of_pos (h a hp)]
      simpa using ih
    · rw [List.filter_cons_of_neg hp]
      by_cases hq : q a = true
      · rw [List.filter_cons_of_pos hq]
        exact le_trans ih (by simp)
      · rw [List.filter_cons_of_neg hq]
        exact ih

theorem filter_eq_nil_of_none {α : Type} (p : α → Bool) (l : List α)
    (h : ∀ a ∈ l, p a = false) : l.filter p = [] := by
  induction l with
  | nil => rfl
  | cons a l ih =>
    rw [List.filter_cons_of_neg (by simp [h a (by simp)])]
    apply ih
    intro x hx
    exact h x (List.mem_cons_of_mem a hx)

theorem enabledTokenFilter_user (tok : Payload) (r : TokenRecord)
    (h : enabledTokenFilter tok r = true) :
    ∃ i, payloadId tok = some i ∧ r.user = i := by
  cases tok with
  | nonObject => simp [enabledTokenFilter] at h
  | obj id scope v =>
    cases id with
    | val i =>
      cases scope with
      | val s =>
        refine ⟨i, rfl, ?_⟩
        simp only [enabledTokenFilter, Bool.and_eq_true, beq_iff_eq] at h
        exact h.1.2
      | absent => simp [enabledTokenFilter] at h
      | other => simp [enabledTokenFilter] at h
    | absent => simp [enabledTokenFilter] at h
    | other => simp [enabledTokenFilter] at h

theorem confirmToken_total (tok : Payload) (ts : String)
    (o : Option TokenRecord) :
    confirmToken tok ts o = .accept tok ∨
    confirmToken tok ts o = .reject .JsonWebTokenError := by
  cases o with
  | none => right; rfl
  | some r =>
    by_cases h : r.token == ts
    · left; simp [confirmToken, h]
    · right; simp [confirmToken, h]

/-- Claim C2: under the single-record-per-user store invariant, a request
whose signature verified is accepted (attaching the decoded token) iff the
store holds a record matching the decoded id and scope with status enabled
whose stored token string equals the presented credential; in every other
case the stage fails with JsonWebTokenError, so a revoked or overwritten
token is rejected even though correctly signed. -/
theorem claim2_confirm (tok : Payload) (ts : String) (db : List TokenRecord)
    (hinv : ∀ u, (db.filter (fun r => r.user == u)).length ≤ 1) :
    (onTokenDecodeSuccess tok ts db = .accept tok ↔
      ∃ r ∈ db, enabledTokenFilter tok r = true ∧ r.token = ts) ∧
    (onTokenDecodeSuccess tok ts db = .accept tok ∨
      onTokenDecodeSuccess tok ts db = .reject .JsonWebTokenError) := by
  refine ⟨?_, confirmToken_total tok ts _⟩
  rcases hid : payloadId tok with _ | i
  · have hnil : db.filter (enabledTokenFilter tok) = [] := by
      apply filter_eq_nil_of_none
      intro r hr
      cases hpr : enabledTokenFilter tok r
      · rfl
      · obtain ⟨i, hi, _⟩ := enabledTokenFilter_user tok r hpr
        rw [hid] at hi
        exact absurd hi (by simp)
    rw [onTokenDecodeSuccess, hnil]
    constructor
    · intro hacc
      exact absurd hacc (by simp [confirmToken])
    · rintro ⟨r, hrmem, hrfil, _⟩
      have : r ∈ db.filter (enabledTokenFilter tok) :=
        List.mem_filter.mpr ⟨hrmem, hrfil⟩
      rw [hnil] at this
      exact absurd this (by simp)
  · have hmono : (db.filter (enabledTokenFilter tok)).length ≤
        (db.filter (fun r => r.user == i)).length := by
      apply filter_length_mono
      intro r hr
      obtain ⟨j, hj, hrj⟩ := enabledTokenFilter_user tok r hr
      rw [hid] at hj
      have : i = j := by injection hj
      rw [hrj, ← this]
      simp
    have hle : (db.filter (enabledTokenFilter tok)).length ≤ 1 :=
      le_trans hmono (hinv i)
    rcases hm : db.filter (enabledTokenFilter tok) with _ | ⟨a, rest⟩
    · rw [onTokenDecodeSuccess, hm]
      constructor
      · intro hacc
        exact absurd hacc (by simp [confirmToken])
      · rintro ⟨r, hrmem, hrfil, _⟩
        have : r ∈ db.filter (enabledTokenFilter tok) :=
          List.mem_filter.mpr ⟨hrmem, hrfil⟩
        rw [hm] at this
        exact absurd this (by simp)
    · rcases rest with _ | ⟨b, rest2⟩
      · rw [onTokenDecodeSuccess, hm]
        have hamem : a ∈ db ∧ enabledTokenFilter tok a = true := by
          have : a ∈ db.filter (enabledTokenFilter tok) := by rw [hm]; simp
          exact List.mem_filter.mp this
        constructor
        · intro hacc
          by_cases hcmp : a.token == ts
          · refine ⟨a, hamem.1, hamem.2, by simpa using hcmp⟩
          · exact absurd hacc (by simp [confirmToken, hcmp])
        · rintro ⟨r, hrmem, hrfil, hrts⟩
          have hra : r = a := by
            have : r ∈ db.filter (enabledTokenFilter tok) :=
              List.mem_filter.mpr ⟨hrmem, hrfil⟩
            rw [hm] at this
            simpa using this
          rw [hra] at hrts
          simp [confirmToken, hrts]
      · rw [hm] at hle
        simp at hle

/-- A decoded token payload used by concrete checks. -/
def sampleToken : Payload :=
  .obj (.val "alice") (.val ["General.Access"]) .absent

/-- A stored token record matching sampleToken, used by concrete checks. -/
def sampleRecord : TokenRecord :=
  { time := 1
    token := "tok1"
    user := "alice"
    validity := "24 hours"
    scope := ["General.Access"]
    status := "enabled"
    authority := "admin" }

/-- Claim C2, witness: on a one-record store the matching credential is
accepted and a different credential for the same claims is rejected. -/
theorem claim2_witness :
    onTokenDecodeSuccess sampleToken "tok1" [sampleRecord] =
      .accept sampleToken ∧
    onTokenDecodeSuccess sampleToken "tok2" [sampleRecord] =
      .reject .JsonWebTokenError := by
  have hinv : ∀ u,
      (([sampleRecord] : List TokenRecord).filter
        (fun r => r.user == u)).length ≤ 1 := by
    intro u
    cases h : sampleRecord.user == u <;> simp [List.filter_cons, h]
  constructor
  · exact (claim2_confirm sampleToken "tok1" [sampleRecord] hinv).1.mpr
      ⟨sampleRecord, by simp, by decide, rfl⟩
  · have h2 := claim2_confirm sampleToken "tok2" [sampleRecord] hinv
    rcases h2.2 with ha | hr
    · exfalso
      rcases h2.1.mp ha with ⟨r, hrmem, _, hrtok⟩
      have hra : r = sampleRecord := by simpa using hrmem
      rw [hra] at hrtok
      exact absurd hrtok (by decide)
    · exact hr

theorem upsertByUser_filter (db : List TokenRecord) (nr : TokenRecord)
    (h : (db.filter (fun r => r.user == nr.user)).length ≤ 1) :
    (upsertByUser db nr).filter (fun r => r.user == nr.user) = [nr] := by
  induction db with
  | nil => simp [upsertByUser, List.filter_cons]
  | cons r rs ih =>
    by_cases hu : (r.user == nr.user) = true
    · rw [upsertByUser, if_pos hu]
      rw [List.filter_cons, if_pos hu] at h
      simp only [List.length_cons] at h
      have hnil : rs.filter (fun r => r.user == nr.user) = [] :=
        List.length_eq_zero.mp (by omega)
      rw [List.filter_cons, if_pos (beq_self_eq_true nr.user), hnil]
    · rw [upsertByUser, if_neg hu]
      rw [List.filter_cons, if_neg hu] at h
      rw [List.filter_cons, if_neg hu]
      exact ih h

/-- Claim C4: starting from a store holding at most one record for the user,
two consecutive generate calls for that user, first with one scope and then
with another, leave exactly one record for the user, and it is enabled and
carries the second scope: the upsert keyed by the user replaces the first
token instead of duplicating it. -/
theorem claim4_generate_upsert (db : List TokenRecord) (u iss iss2 : String)
    (S S2 : List String) (i i2 : JField String) (v v2 : JField String)
    (now now2 : Nat)
    (h : (db.filter (fun r => r.user == u)).length ≤ 1) :
    ∃ t, ((generate (.obj i2 (.val S2) v2) u iss2
            ((generate (.obj i (.val S) v) u iss db now).1) now2).1).filter
          (fun r => r.user == u) = [t] ∧
      t.scope = S2 ∧ t.status = "enabled" ∧ t.user = u := by
  have h2 : ((generate (.obj i (.val S) v) u iss db now).1).filter
      (fun r => r.user == u) =
      [{ time := now
         token := sign (.obj (.val u) (.val S) v) now
         user := u
         validity := validityOf (.obj (.val u) (.val S) v)
         scope := S
         status := "enabled"
         authority := iss }] :=
    upsertByUser_filter db
      { time := now
        token := sign (.obj (.val u) (.val S) v) now
        user := u
        validity := validityOf (.obj (.val u) (.val S) v)
        scope := S
        status := "enabled"
        authority := iss } h
  have h2len : (((generate (.obj i (.val S) v) u iss db now).1).filter
      (fun r => r.user == u)).length ≤ 1 := by
    rw [h2]
    simp
  have h4 : ((generate (.obj i2 (.val S2) v2) u iss2
      ((generate (.obj i (.val S) v) u iss db now).1) now2).1).filter
        (fun r => r.user == u) =
      [{ time := now2
         token := sign (.obj (.val u) (.val S2) v2) now2
         user := u
         validity := validityOf (.obj (.val u) (.val S2) v2)
         scope := S2
         status := "enabled"
         authority := iss2 }] :=
    upsertByUser_filter ((generate (.obj i (.val S) v) u iss db now).1)
      { time := now2
        token := sign (.obj (.val u) (.val S2) v2) now2
        user := u
        validity := validityOf (.obj (.val u) (.val S2) v2)
        scope := S2
        status := "enabled"
        authority := iss2 } h2len
  exact ⟨_, h4, rfl, rfl, rfl⟩

/-- Claim C4, witness: on the empty store, generating twice for alice leaves
exactly one record for alice. -/
theorem claim4_witness :
    (((generate (.obj .absent (.val ["Tokens.List"]) .absent) "alice" "admin"
        ((generate (.obj .absent (.val ["General.Access"]) .absent)
          "alice" "admin" [] 1).1) 2).1).filter
      (fun r => r.user == "alice")).length = 1 := by
  obtain ⟨t, ht, _, _, _⟩ := claim4_generate_upsert [] "alice" "admin" "admin"
    ["General.Access"] ["Tokens.List"] .absent .absent .absent .absent 1 2
    (by decide)
  rw [ht]
  rfl

/-- Claim C5: invalidate removes every token record of the target user; when
none existed it replies with the NothingToRemoveError triple, HTTP 409; when
at least one existed it replies successfully quoting the removed count; and
afterwards a signature-verified authentication attempt whose decoded id is
that user is rejected with JsonWebTokenError, since no record remains. -/
theorem claim5_invalidate (u : String) (reqStatus : Nat)
    (db : List TokenRecord) (tok : Payload) (ts : String) :
    ((invalidate u reqStatus db).1.filter (fun r => r.user == u)) = [] ∧
    (db.filter (fun r => r.user == u) = [] →
      (invalidate u reqStatus db).2 =
        ⟨409, .errBody 107 "Nothing to remove"⟩) ∧
    (db.filter (fun r => r.user == u) ≠ [] →
      (invalidate u reqStatus db).2 =
        ⟨reqStatus, .msgBody (String.intercalate " "
          ["Removed", toString (db.filter (fun r => r.user == u)).length,
           "record(s)"])⟩) ∧
    (payloadId tok = some u →
      onTokenDecodeSuccess tok ts (invalidate u reqStatus db).1 =
        .reject .JsonWebTokenError) := by
  have hclean : ((invalidate u reqStatus db).1.filter
      (fun r => r.user == u)) = [] := by
    apply filter_eq_nil_of_none
    intro r hr
    show (r.user == u) = false
    have hmem : (!(r.user == u)) = true := by
      simpa using (List.mem_filter.mp hr).2
    cases hru : r.user == u
    · rfl
    · rw [hru] at hmem
      simp at hmem
  refine ⟨hclean, ?_, ?_, ?_⟩
  · intro hempty
    simp [invalidate, processRemove, respond, hempty,
      Errors.NothingToRemoveError]
  · intro hne
    have hpos : 0 < (db.filter (fun r => r.user == u)).length :=
      List.length_pos.mpr hne
    simp [invalidate, processRemove, respond, hpos]
  · intro hid
    have hnil : ((invalidate u reqStatus db).1.filter
        (enabledTokenFilter tok)) = [] := by
      apply filter_eq_nil_of_none
      intro r hr
      cases hpr : enabledTokenFilter tok r
      · rfl
      · exfalso
        obtain ⟨j, hj, hrj⟩ := enabledTokenFilter_user tok r hpr
        rw [hid] at hj
        have huj : u = j := by injection hj
        have hmem : (!(r.user == u)) = true := by
          simpa using (List.mem_filter.mp hr).2
        rw [hrj, ← huj] at hmem
        simp at hmem
    rw [onTokenDecodeSuccess, hnil]
    rfl

/-- Claim C5, witness: removing the only record of alice empties her
records, replies with the count, a second attempt replies 409 with the
NothingToRemoveError triple, and authenticating with the old credential is
rejected. -/
theorem claim5_witness :
    ((invalidate "alice" 200 [sampleRecord]).1.filter
      (fun r => r.user == "alice")) = [] ∧
    (invalidate "alice" 200 [sampleRecord]).2 =
      ⟨200, .msgBody "Removed 1 record(s)"⟩ ∧
    (invalidate "alice" 200 []).2 = ⟨409, .errBody 107 "Nothing to remove"⟩ ∧
    onTokenDecodeSuccess sampleToken "tok1"
      (invalidate "alice" 200 [sampleRecord]).1 =
      .reject .JsonWebTokenError := by
  have h := claim5_invalidate "alice" 200 [sampleRecord] sampleToken "tok1"
  have h0 := claim5_invalidate "alice" 200 [] sampleToken "tok1"
  refine ⟨h.1, ?_, h0.2.1 rfl, h.2.2.2 rfl⟩
  have h3 := h.2.2.1 (by decide)
  rw [h3]
  decide

theorem requireMiddleware_no_noData (R G : List String) :
    requireMiddleware R G ≠ .nextError .NoDataAvailableError := by
  unfold requireMiddleware
  by_cases hp : processPermissions R G = true
  · simp [hp]
  · simp [hp]

theorem secure_no_noData (t : Option Payload) (b : Payload) :
    secure t b ≠ .nextError .NoDataAvailableError := by
  cases t with
  | none => simp [secure]
  | some t0 =>
    by_cases hv : (validateToken t0 && validatePayload b) = true
    · simp [secure, hv]
    · simp [secure, hv]

theorem onTokenDecodeSuccess_no_noData (tok : Payload) (ts : String)
    (db : List TokenRecord) :
    onTokenDecodeSuccess tok ts db ≠ .reject .NoDataAvailableError := by
  rcases confirmToken_total tok ts (db.filter (enabledTokenFilter tok)).head?
    with h | h
  · rw [onTokenDecodeSuccess, h]; simp
  · rw [onTokenDecodeSuccess, h]; simp

theorem generate_no_noData (body : Payload) (u iss : String)
    (db : List TokenRecord) (now : Nat) :
    (generate body u iss db now).2 ≠ .nextError .NoDataAvailableError := by
  by_cases hv : validateToken (setBodyId body u) = true
  · rw [generate, if_pos hv]
    simp
  · rw [generate, if_neg hv]
    simp

theorem invalidate_no_noData (u : String) (st : Nat)
    (db : List TokenRecord) (m : String) :
    (invalidate u st db).2.body ≠ .errBody 106 m := by
  by_cases hp : 0 < (db.filter (fun r => r.user == u)).length
  · simp [invalidate, processRemove, respond, hp]
  · simp [invalidate, processRemove, respond, hp,
      Errors.NothingToRemoveError]

/-- A query predicate matching no log entry, for concrete checks. -/
def matchNothing : LogRecord → Bool := fun _ => false

/-- Claim C10: the list pipeline of the store never produces an error: the
raw list response always maps to a list, listing tokens on an empty store
and listing logs under a filter matching nothing reply HTTP 200 with the
empty array, and no reachable outcome of any modeled stage or action is
NoDataAvailableError, even though the error table defines it. -/
theorem claim10_list_never_errors :
    (∀ rows : List LogRecord, processList rows = rows) ∧
    (∀ rows : List TokenRecord, processList rows = rows) ∧
    (∀ (db : List LogRecord) (q : LogRecord → Bool),
      (∀ r ∈ db, q r = false) → logsAction 200 db q = ⟨200, .logsBody []⟩) ∧
    listTokensAction 200 [] = ⟨200, .tokensBody []⟩ ∧
    (∀ R G, requireMiddleware R G ≠ .nextError .NoDataAvailableError) ∧
    (∀ t b, secure t b ≠ .nextError .NoDataAvailableError) ∧
    (∀ tok ts db,
      onTokenDecodeSuccess tok ts db ≠ .reject .NoDataAvailableError) ∧
    (∀ body u iss db now,
      (generate body u iss db now).2 ≠ .nextError .NoDataAvailableError) ∧
    (∀ u st db m, (invalidate u st db).2.body ≠ .errBody 106 m) ∧
    (∀ hdr verify db, (∀ s, verify s ≠ .error .NoDataAvailableError) →
      (authenticate hdr verify db).result ≠ .reject .NoDataAvailableError) := by
  have hproc : ∀ (α : Type) (rows : List α), processList rows = rows := by
    intro α rows
    cases rows with
    | nil => rfl
    | cons a l => simp [processList]
  refine ⟨hproc LogRecord, hproc TokenRecord, ?_, rfl,
    requireMiddleware_no_noData, secure_no_noData,
    onTokenDecodeSuccess_no_noData, generate_no_noData,
    invalidate_no_noData, ?_⟩
  · intro db q hq
    have hnil : db.filter q = [] := filter_eq_nil_of_none q db hq
    simp [logsAction, databaseListLogs, hnil, sortByTimeDesc, processList,
      respond]
  · intro hdr verify db hverify
    cases hdr with
    | none => simp [authenticate]
    | some h =>
      by_cases hfmt : tokenFormatTest h = true
      · cases hv : verify (tokenStringOf h) with
        | error e =>
          have hne : (Except.error e : Except ErrName Payload) ≠
              .error .NoDataAvailableError := by
            rw [← hv]
            exact hverify (tokenStringOf h)
          have he : e ≠ .NoDataAvailableError := by
            intro hcon
            exact hne (by rw [hcon])
          simpa [authenticate, hfmt, hv] using he
        | ok tok =>
          simpa [authenticate, hfmt, hv] using
            onTokenDecodeSuccess_no_noData tok (tokenStringOf h) db
      · simp [authenticate, hfmt]

/-- Claim C10, witness: listing logs on the empty store under an
always-false filter replies 200 with the empty array, and a concrete
authenticate run with a verifier that never yields NoDataAvailableError
does not yield it either. -/
theorem claim10_witness :
    logsAction 200 [] matchNothing = ⟨200, .logsBody []⟩ ∧
    (authenticate (some "Bearer a.b.c") verifyStub []).result ≠
      .reject .NoDataAvailableError := by
  refine ⟨claim10_list_never_errors.2.2.1 [] matchNothing (by simp), ?_⟩
  exact claim10_list_never_errors.2.2.2.2.2.2.2.2.2 (some "Bearer a.b.c")
    verifyStub [] (by intro s; simp [verifyStub])
